import Mathlib

set_option maxRecDepth 20000

/-!
Verification of the sidebar-ordering callback in `docs/.vitepress/config.ts`.

The only executable logic in the repository is the `beforeCreateSideBarItems`
callback passed to the auto-sidebar plugin:

  beforeCreateSideBarItems: (data: string[]): string[] => {
      function getOrder(item: string): number {
          if (item == "index.md") { return 0; }
          let res = item.match(/(?<order>\d+)/);
          if (res && res.groups) { return parseInt(res.groups.order); }
          else { return 999; }
      }
      data.sort((a, b) => { return getOrder(a) - getOrder(b); });
      return data.filter((n) => n != ".DS_Store");
  }

Embedding notes, justified against ECMAScript semantics:
- `item.match(/(?<order>\d+)/)` finds the leftmost maximal run of the
  characters 0-9 (`\d` without the `u` flag is exactly [0-9]); the named
  group `order` is the whole match, so `res.groups` is defined whenever the
  match succeeds.  This is `firstDigitRun` below.
- `parseInt` on a pure digit string computes its mathematical base-10 value
  and then rounds it to an IEEE-754 binary64 number (round to nearest, ties
  to even; values of 2^1024 or more overflow to +infinity).  `roundDouble`
  below performs that rounding exactly on `Nat`, representing +infinity by
  the single value 2^1024, which preserves all order comparisons.
- `Array.prototype.sort` with a consistent comparator is specified to be
  stable, so its result is the unique stable sort by `getOrder`; we embed it
  as insertion sort.  The comparator `getOrder(a) - getOrder(b)` has the
  sign of the exact key difference (binary64 subtraction of two distinct
  doubles never rounds to zero, is monotone, and two overflowed keys
  compare equal, matching the 2^1024 clamp).
- `sort` mutates the array in place; `filter` then builds a fresh array
  from the sorted contents.  `beforeCreateSideBarItems` below is the return
  value, and `dataAfterCall` is the state of the caller's array after the
  callback returns.
-/

/-- Fuel-driven base-2 logarithm (`log2fuel fuel n` = floor of log2 of `n`
whenever `fuel ≥ n` and `n ≥ 1`); structural recursion on the fuel keeps it
kernel-reducible on concrete inputs. -/
def log2fuel : Nat → Nat → Nat
  | 0, _ => 0
  | fuel + 1, n => if n < 2 then 0 else log2fuel fuel (n / 2) + 1

/-- Rounding of a non-negative mathematical integer to an IEEE-754 binary64
value (round to nearest, ties to even), returned as its exact `Nat` value;
results of 2^1024 or more overflow to +infinity, represented here by the
single value 2^1024.  This is what `parseInt` does to a digit run after
computing its mathematical value. -/
def roundDouble (n : Nat) : Nat :=
  if n < 2 ^ 53 then n
  else
    let e := log2fuel n n - 52
    let q := n / 2 ^ e
    let r := n % 2 ^ e
    let q2 := if r < 2 ^ (e - 1) then q
      else if 2 ^ (e - 1) < r then q + 1
      else if q % 2 = 0 then q else q + 1
    min (q2 * 2 ^ e) (2 ^ 1024)

/-- Leftmost maximal run of decimal-digit characters in a character list,
or `none` if the list has no digit: the embedding of
`item.match(/(?<order>\d+)/)`. -/
def firstDigitRun : List Char → Option (List Char)
  | [] => none
  | c :: cs => if c.isDigit then some (c :: cs.takeWhile Char.isDigit) else firstDigitRun cs

/-- Mathematical base-10 value of a list of digit characters (48 is the code
of the zero digit). -/
def digitsToNat (run : List Char) : Nat :=
  run.foldl (fun acc c => 10 * acc + (c.toNat - 48)) 0

/-- The order key of a filename: the embedding of `getOrder` from
`beforeCreateSideBarItems`.  "index.md" is special-cased to 0; otherwise the
leftmost digit run is parsed by `parseInt` (mathematical value rounded to
binary64); with no digit run the sentinel 999 is returned. -/
def getOrder (item : String) : Nat :=
  if item = "index.md" then 0
  else
    match firstDigitRun item.data with
    | some run => roundDouble (digitsToNat run)
    | none => 999

/-- The preorder the comparator `(a, b) => getOrder(a) - getOrder(b)`
induces on filenames. -/
def orderLe (a b : String) : Prop := getOrder a ≤ getOrder b

instance : DecidableRel orderLe := fun a b =>
  inferInstanceAs (Decidable (getOrder a ≤ getOrder b))

instance : IsTrans String orderLe := ⟨fun _ _ _ => Nat.le_trans⟩

instance : IsTotal String orderLe := ⟨fun a b => Nat.le_total (getOrder a) (getOrder b)⟩

instance : IsRefl String orderLe := ⟨fun _ => Nat.le_refl _⟩

/-- Return value of the callback: the input stably sorted by `getOrder`
(the in-place `data.sort`), then filtered to drop ".DS_Store". -/
def beforeCreateSideBarItems (data : List String) : List String :=
  (List.insertionSort orderLe data).filter (fun n => n != ".DS_Store")

/-- Contents of the caller's `data` array after the callback returns:
`Array.prototype.sort` sorts in place, so the caller's array holds the
sorted (unfiltered) contents. -/
def dataAfterCall (data : List String) : List String :=
  List.insertionSort orderLe data

/-- Modelled from the spec: the order of operations the spec states for
`filterAndSort` — first remove every element equal to the artifact name,
then stable-sort the remainder ascending by the order key. -/
def specFilterThenSort (data : List String) : List String :=
  List.insertionSort orderLe (data.filter (fun n => n != ".DS_Store"))

/-! Helper lemmas about stable sorting. -/

/-- Inserting an element that is below the whole list puts it in front. -/
theorem orderedInsert_eq_cons {α : Type _} (r : α → α → Prop) [DecidableRel r] {a : α}
    {l : List α} (h : ∀ c ∈ l, r a c) : l.orderedInsert r a = a :: l := by
  cases l with
  | nil => rfl
  | cons b t => exact List.orderedInsert_of_le r t (h b (List.mem_cons_self b t))

/-- Filtering commutes with ordered insertion into a sorted list. -/
theorem filter_orderedInsert {α : Type _} (r : α → α → Prop) [DecidableRel r] [IsTrans α r]
    (p : α → Bool) (a : α) :
    ∀ l : List α, l.Sorted r →
      (l.orderedInsert r a).filter p =
        if p a then (l.filter p).orderedInsert r a else l.filter p := by
  intro l
  induction l with
  | nil =>
    intro _
    by_cases hpa : p a <;> simp [List.filter_cons, hpa]
  | cons b t ih =>
    intro hs
    have hbt : ∀ x ∈ t, r b x := List.rel_of_sorted_cons hs
    have ht : t.Sorted r := hs.of_cons
    by_cases hab : r a b
    · rw [List.orderedInsert_of_le r t hab]
      by_cases hpa : p a
      · rw [if_pos hpa, List.filter_cons_of_pos hpa,
          orderedInsert_eq_cons r (fun c hc => ?_)]
        rcases List.mem_cons.mp (List.mem_of_mem_filter hc) with hcb | hct
        · exact hcb ▸ hab
        · exact IsTrans.trans a b c hab (hbt c hct)
      · rw [if_neg hpa, List.filter_cons_of_neg hpa]
    · have hstep : (b :: t).orderedInsert r a = b :: t.orderedInsert r a := by
        simp [List.orderedInsert, hab]
      rw [hstep]
      have iht := ih ht
      by_cases hpb : p b <;> by_cases hpa : p a <;>
        simp [List.filter_cons, hpb, hpa, iht, List.orderedInsert, hab]

/-- Filtering commutes with insertion sort: the heart of the fact that
sort-then-filter equals filter-then-sort for a stable sort. -/
theorem filter_insertionSort {α : Type _} (r : α → α → Prop) [DecidableRel r] [IsTrans α r]
    [IsTotal α r] (p : α → Bool) :
    ∀ l : List α, (l.insertionSort r).filter p = (l.filter p).insertionSort r
  | [] => rfl
  | a :: t => by
    have h := filter_orderedInsert r p a (t.insertionSort r) (List.sorted_insertionSort r t)
    have ih := filter_insertionSort r p t
    by_cases hpa : p a <;>
      simp [List.insertionSort, List.filter_cons, hpa, h, ih]

/-- The callback's output is sorted by the comparator's preorder. -/
theorem sorted_beforeCreateSideBarItems (data : List String) :
    (beforeCreateSideBarItems data).Sorted orderLe := by
  unfold beforeCreateSideBarItems
  exact List.Pairwise.filter _ (List.sorted_insertionSort orderLe data)

/-! Claim theorems. -/

/-- C1 (corrected): the original claim — "index.md" is always first whenever it
occurs in the input — fails, because other filenames can also have order key 0.
Amended: if "index.md" occurs in the input and no other input element has order
key 0, then it is the first element of the output. -/
theorem index_md_first (data : List String)
    (hmem : "index.md" ∈ data)
    (huniq : ∀ x ∈ data, getOrder x = 0 → x = "index.md") :
    (beforeCreateSideBarItems data).head? = some "index.md" := by
  have hout : "index.md" ∈ beforeCreateSideBarItems data := by
    unfold beforeCreateSideBarItems
    exact List.mem_filter.mpr ⟨(List.mem_insertionSort orderLe).mpr hmem, by decide⟩
  rcases hh : beforeCreateSideBarItems data with _ | ⟨h, t⟩
  · rw [hh] at hout
    exact absurd hout (List.not_mem_nil _)
  · rw [hh] at hout
    have hsorted := sorted_beforeCreateSideBarItems data
    rw [hh] at hsorted
    rcases List.mem_cons.mp hout with he | ht
    · simp [he.symm]
    · have hle : orderLe h "index.md" := List.rel_of_sorted_cons hsorted _ ht
      have hidx : getOrder "index.md" = 0 := by decide
      have h0 : getOrder h = 0 := by
        have : getOrder h ≤ getOrder "index.md" := hle
        omega
      have hmemh : h ∈ data := by
        have hm : h ∈ beforeCreateSideBarItems data := hh ▸ List.mem_cons_self h t
        unfold beforeCreateSideBarItems at hm
        exact (List.mem_insertionSort orderLe).mp (List.mem_of_mem_filter hm)
      simp [huniq h hmemh h0]

/-- C1 witness: on ["about.md", "index.md"] the hypotheses hold and the output
starts with "index.md". -/
theorem index_md_first_witness :
    ("index.md" ∈ (["about.md", "index.md"] : List String))
      ∧ (beforeCreateSideBarItems ["about.md", "index.md"]).head? = some "index.md" :=
  ⟨by decide, index_md_first ["about.md", "index.md"] (by decide) (by decide)⟩

/-- C1 counterexample: the input ["0-intro.md", "index.md"] contains "index.md",
yet the output starts with "0-intro.md" (its digit run also parses to 0 and it
precedes "index.md" in the input, so the stable sort keeps it first). -/
theorem index_md_not_always_first :
    "index.md" ∈ (["0-intro.md", "index.md"] : List String)
      ∧ beforeCreateSideBarItems ["0-intro.md", "index.md"] = ["0-intro.md", "index.md"] := by
  decide

/-- C2 (corrected): the original claim — the input list is unchanged after the
call — fails, because `Array.prototype.sort` sorts the caller's array in place.
Amended: after the call the input array holds a permutation of its original
contents (sorted by the comparator's preorder); nothing is added or removed. -/
theorem dataAfterCall_perm_sorted (data : List String) :
    (dataAfterCall data).Perm data ∧ (dataAfterCall data).Sorted orderLe :=
  ⟨List.perm_insertionSort orderLe data, List.sorted_insertionSort orderLe data⟩

/-- C2 counterexample: on ["1-b.md", "0-a.md"] the caller's array is reordered
by the in-place sort, so the input is not unchanged after the call. -/
theorem input_mutated_counterexample :
    dataAfterCall ["1-b.md", "0-a.md"] = ["0-a.md", "1-b.md"]
      ∧ dataAfterCall ["1-b.md", "0-a.md"] ≠ ["1-b.md", "0-a.md"] := by
  decide

/-- C3 (corrected): the original claim — digit-free filenames appear after all
digit-bearing ones — fails, because a digit run can parse to 999 or more.
Amended: whenever a digit-free filename other than "index.md" appears in the
output, every element after it has order key at least 999, so digit-free
filenames appear after exactly those filenames whose order key is below 999. -/
theorem digitfree_after_small_keys (data : List String) :
    (beforeCreateSideBarItems data).Pairwise
      (fun a b => firstDigitRun a.data = none → a ≠ "index.md" → 999 ≤ getOrder b) := by
  have hs := sorted_beforeCreateSideBarItems data
  refine hs.imp ?_
  intro a b hab hnone hne
  have ha : getOrder a = 999 := by
    unfold getOrder
    rw [if_neg hne, hnone]
  have : getOrder a ≤ getOrder b := hab
  omega

/-- C3 counterexample: "1000-a.md" bears a digit run, "about.md" does not, yet
the digit-free "about.md" comes first because 999 < 1000. -/
theorem digitfree_not_always_last :
    beforeCreateSideBarItems ["1000-a.md", "about.md"] = ["about.md", "1000-a.md"]
      ∧ firstDigitRun (String.data "about.md") = none
      ∧ firstDigitRun (String.data "1000-a.md") ≠ none := by
  decide

/-- C4 (corrected): the original claim — the digit run's exact base-10 value is
returned for runs of any length — fails, because `parseInt` returns a binary64
value and rounds runs whose value is 2^53 or more. Amended: for every filename
other than "index.md" whose leftmost maximal digit run parses to a value below
2^53, `getOrder` returns exactly that value. -/
theorem getOrder_exact_below_two_pow_53 (s : String) (run : List Char)
    (h1 : s ≠ "index.md") (h2 : firstDigitRun s.data = some run)
    (h3 : digitsToNat run < 2 ^ 53) :
    getOrder s = digitsToNat run := by
  unfold getOrder
  rw [if_neg h1, h2]
  show roundDouble (digitsToNat run) = digitsToNat run
  unfold roundDouble
  rw [if_pos h3]

/-- C4 witness: "a2b30.md" has leftmost run "2" and gets order key 2. -/
theorem getOrder_exact_below_two_pow_53_witness :
    ("a2b30.md" : String) ≠ "index.md"
      ∧ firstDigitRun (String.data "a2b30.md") = some ['2']
      ∧ digitsToNat ['2'] < 2 ^ 53
      ∧ getOrder "a2b30.md" = digitsToNat ['2'] :=
  ⟨by decide, by decide, by decide,
    getOrder_exact_below_two_pow_53 "a2b30.md" ['2'] (by decide) (by decide) (by decide)⟩

/-- C4 counterexample: the run "9007199254740993" (2^53 + 1) parses exactly to
9007199254740993, but `parseInt` rounds it to the even double 9007199254740992,
so `getOrder` does not return the run's exact value. -/
theorem parseInt_precision_counterexample :
    (firstDigitRun (String.data "9007199254740993-a.md")).map digitsToNat
        = some 9007199254740993
      ∧ getOrder "9007199254740993-a.md" = 9007199254740992
      ∧ getOrder "9007199254740993-a.md" ≠ 9007199254740993 := by
  decide

/-- C5 (confirmed): the output is a permutation of the input minus all
occurrences of ".DS_Store", it is sorted ascending by order key, and for every
key the elements carrying it keep their relative input order (stability). -/
theorem sidebar_perm_sorted_stable (data : List String) :
    (beforeCreateSideBarItems data).Perm (data.filter (fun n => n != ".DS_Store"))
      ∧ (beforeCreateSideBarItems data).Sorted orderLe
      ∧ ∀ k : Nat,
          (beforeCreateSideBarItems data).filter (fun x => getOrder x == k)
            = (data.filter (fun n => n != ".DS_Store")).filter (fun x => getOrder x == k) := by
  refine ⟨(List.perm_insertionSort orderLe data).filter _,
    sorted_beforeCreateSideBarItems data, fun k => ?_⟩
  unfold beforeCreateSideBarItems
  rw [List.filter_filter, List.filter_filter, filter_insertionSort orderLe _ data]
  apply List.Sorted.insertionSort_eq
  apply List.pairwise_of_forall_mem_list
  intro a ha b hb
  have ha2 := (List.mem_filter.mp ha).2
  have hb2 := (List.mem_filter.mp hb).2
  simp only [Bool.and_eq_true, beq_iff_eq] at ha2 hb2
  show getOrder a ≤ getOrder b
  rw [ha2.1, hb2.1]

/-- C6 (confirmed): sorting the whole list and then filtering out ".DS_Store"
gives the same output as first removing ".DS_Store" and then stable-sorting,
the order of operations the spec states. -/
theorem sort_then_filter_eq_filter_then_sort (data : List String) :
    beforeCreateSideBarItems data = specFilterThenSort data := by
  unfold beforeCreateSideBarItems specFilterThenSort
  exact filter_insertionSort orderLe (fun n => n != ".DS_Store") data

/-- C7 (confirmed): the callback is idempotent — its output is already sorted
and artifact-free, so feeding it back in returns it unchanged. -/
theorem beforeCreateSideBarItems_idempotent (data : List String) :
    beforeCreateSideBarItems (beforeCreateSideBarItems data) = beforeCreateSideBarItems data := by
  have hsorted := sorted_beforeCreateSideBarItems data
  rw [show beforeCreateSideBarItems (beforeCreateSideBarItems data)
        = (List.insertionSort orderLe (beforeCreateSideBarItems data)).filter
            (fun n => n != ".DS_Store") from rfl,
    List.Sorted.insertionSort_eq hsorted]
  refine List.filter_eq_self.mpr fun a ha => ?_
  unfold beforeCreateSideBarItems at ha
  exact (List.mem_filter.mp ha).2

/-- C8 (confirmed): any filename whose leftmost digit run parses to 0 gets
order key 0, the same key as the special-cased "index.md". -/
theorem zero_run_gives_key_zero (s : String) (run : List Char)
    (h2 : firstDigitRun s.data = some run) (h3 : digitsToNat run = 0) :
    getOrder s = 0 ∧ getOrder "index.md" = 0 := by
  refine ⟨?_, by decide⟩
  unfold getOrder
  by_cases hidx : s = "index.md"
  · rw [if_pos hidx]
  · rw [if_neg hidx, h2]
    show roundDouble (digitsToNat run) = 0
    rw [h3]
    decide

/-- C8 witness: "0-intro.md" has digit run "0" and gets order key 0, tying
with "index.md". -/
theorem zero_run_gives_key_zero_witness :
    firstDigitRun (String.data "0-intro.md") = some ['0']
      ∧ digitsToNat ['0'] = 0
      ∧ getOrder "0-intro.md" = 0 ∧ getOrder "index.md" = 0 :=
  ⟨by decide, by decide, zero_run_gives_key_zero "0-intro.md" ['0'] (by decide) (by decide)⟩

/-- C9 (confirmed): ".DS_Store" never occurs in the output, however many times
it occurs in the input. -/
theorem dsStore_not_mem_output (data : List String) :
    ".DS_Store" ∉ beforeCreateSideBarItems data := by
  intro h
  unfold beforeCreateSideBarItems at h
  have h2 := (List.mem_filter.mp h).2
  simp at h2

/-- C10 (confirmed): the spec's end-to-end example evaluates exactly as
stated. -/
theorem end_to_end_example :
    beforeCreateSideBarItems
        ["about.md", "index.md", "10-install.md", "2-quickstart.md", ".DS_Store", "99-faq.md"]
      = ["index.md", "2-quickstart.md", "10-install.md", "99-faq.md", "about.md"] := by
  decide
